import Mathlib

/-!
# Verification of the dev-tools feature-flag manager

Shallow embedding of the repository's feature-flag workflow:

* `feature-flag-manager.js` — the single-project interactive CLI
  (`addFeatureFlagToFile`, the prompt flow of `main`, the branch/commit/push
  sequence and its error handling through `executeCommand`);
* `bulk-feature-flag-manager.js` — the bulk driver feeding scripted answers
  to the single-project script.

File contents are modelled as `String`s (JS strings).  Helper predicates
(`includesJs`, `endsWithNl`, `isBlankL`) reproduce the exact JS string
operations used by the source (`String.prototype.includes`, `endsWith('\n')`,
`!content.trim()`).  File-system and git side effects are modelled as explicit
action traces; `process.exit` is modelled as immediate termination of the run.
-/

namespace DevTools

/-- Whitespace characters as stripped by JS `String.prototype.trim`
(restricted to the ASCII class, which is all that can occur here). -/
def isWs (c : Char) : Bool :=
  c = ' ' || c = '\t' || c = '\n' || c = '\r' || c = '\x0b' || c = '\x0c'

/-- Test whether the string is empty or whitespace-only: models the JS test
`!content.trim()`. -/
def isBlankL (l : List Char) : Bool := l.all isWs

/-- Boolean list-prefix test (executable). -/
def prefixB : List Char → List Char → Bool
  | [], _ => true
  | _ :: _, [] => false
  | a :: as, b :: bs => a = b && prefixB as bs

/-- Boolean substring test: models JS `String.prototype.includes`. -/
def infixOfB (p : List Char) : List Char → Bool
  | [] => p.isEmpty
  | a :: rest => prefixB p (a :: rest) || infixOfB p rest

/-- JS `s.includes(pat)`. -/
def includesJs (s pat : String) : Bool := infixOfB pat.data s.data

/-- JS `s.endsWith("\n")` (last character is a newline). -/
def endsWithNlL : List Char → Bool
  | [] => false
  | [c] => c = '\n'
  | _ :: c :: rest => endsWithNlL (c :: rest)

/-- JS `content.endsWith('\n')`. -/
def endsWithNl (s : String) : Bool := endsWithNlL s.data

/-- Split a character sequence at `'\n'`.  A string with `k` newline
characters yields `k + 1` lines; a newline-terminated string therefore ends
with the empty line. -/
def linesOf : List Char → List (List Char)
  | [] => [[]]
  | c :: rest =>
    if c = '\n' then [] :: linesOf rest
    else (c :: (linesOf rest).headD []) :: (linesOf rest).tail

/-- Inverse of `linesOf`: interleave `'\n'` between the lines. -/
def joinLines : List (List Char) → List Char
  | [] => []
  | [l] => l
  | l :: l' :: ls => l ++ '\n' :: joinLines (l' :: ls)

/-! ## Lemmas about the string helpers -/

theorem prefixB_iff (p l : List Char) : prefixB p l = true ↔ ∃ t, l = p ++ t := by
  induction p generalizing l with
  | nil => simp [prefixB]
  | cons a as ih =>
    cases l with
    | nil => simp [prefixB]
    | cons b bs =>
      simp only [prefixB, Bool.and_eq_true, decide_eq_true_eq, ih, List.cons_append,
        List.cons.injEq]
      constructor
      · rintro ⟨rfl, t, rfl⟩; exact ⟨t, rfl, rfl⟩
      · rintro ⟨t, rfl, rfl⟩; exact ⟨rfl, t, rfl⟩

theorem infixOfB_iff (p l : List Char) : infixOfB p l = true ↔ ∃ u v, l = u ++ p ++ v := by
  induction l with
  | nil =>
    simp only [infixOfB, List.isEmpty_iff]
    constructor
    · rintro rfl; exact ⟨[], [], rfl⟩
    · rintro ⟨u, v, h⟩
      rcases List.append_eq_nil.mp (List.append_eq_nil.mp h.symm).1 with ⟨_, h2⟩
      exact h2
  | cons a rest ih =>
    simp only [infixOfB, Bool.or_eq_true, prefixB_iff, ih]
    constructor
    · rintro (⟨t, ht⟩ | ⟨u, v, huv⟩)
      · exact ⟨[], t, by simpa using ht⟩
      · exact ⟨a :: u, v, by simp [huv]⟩
    · rintro ⟨u, v, huv⟩
      cases u with
      | nil => exact Or.inl ⟨v, by simpa using huv⟩
      | cons x xs =>
        simp only [List.cons_append, List.cons.injEq] at huv
        exact Or.inr ⟨xs, v, huv.2⟩

theorem linesOf_ne_nil (l : List Char) : linesOf l ≠ [] := by
  cases l with
  | nil => simp [linesOf]
  | cons c rest =>
    by_cases h : c = '\n' <;> simp [linesOf, h]

theorem linesOf_append_nl (xs ys : List Char) :
    linesOf (xs ++ '\n' :: ys) = linesOf xs ++ linesOf ys := by
  induction xs with
  | nil => simp [linesOf]
  | cons c rest ih =>
    by_cases h : c = '\n'
    · subst h
      simp [linesOf, ih]
    · obtain ⟨l, ls, hls⟩ : ∃ l ls, linesOf rest = l :: ls := by
        cases hr : linesOf rest with
        | nil => exact absurd hr (linesOf_ne_nil rest)
        | cons l ls => exact ⟨l, ls, rfl⟩
      simp only [List.cons_append, linesOf, h, if_false, List.append_eq]
      rw [ih, hls]
      simp

theorem linesOf_no_nl (xs : List Char) (h : '\n' ∉ xs) : linesOf xs = [xs] := by
  induction xs with
  | nil => simp [linesOf]
  | cons c rest ih =>
    have hc : c ≠ '\n' := fun hc => h (hc ▸ List.mem_cons_self c rest)
    have hrest : '\n' ∉ rest := fun hr => h (List.mem_cons_of_mem c hr)
    simp [linesOf, hc, ih hrest]

theorem joinLines_linesOf (l : List Char) : joinLines (linesOf l) = l := by
  induction l with
  | nil => simp [linesOf, joinLines]
  | cons c rest ih =>
    by_cases h : c = '\n'
    · subst h
      obtain ⟨m, ms, hm⟩ : ∃ m ms, linesOf rest = m :: ms := by
        cases hr : linesOf rest with
        | nil => exact absurd hr (linesOf_ne_nil rest)
        | cons m ms => exact ⟨m, ms, rfl⟩
      simp only [linesOf, if_pos rfl, joinLines, hm]
      rw [hm] at ih
      simpa [joinLines] using ih
    · obtain ⟨m, ms, hm⟩ : ∃ m ms, linesOf rest = m :: ms := by
        cases hr : linesOf rest with
        | nil => exact absurd hr (linesOf_ne_nil rest)
        | cons m ms => exact ⟨m, ms, rfl⟩
      simp only [linesOf, h, if_false, hm, List.headD_cons, List.tail_cons]
      rw [hm] at ih
      cases ms with
      | nil => simpa [joinLines] using ih
      | cons m' ms' => simpa [joinLines] using ih

theorem linesOf_struct (l : List Char) :
    ∃ m ms, linesOf l = m :: ms ∧ (∃ v, l = m ++ v) ∧
      (∀ x ∈ ms, ∃ u v, l = u ++ x ++ v) := by
  induction l with
  | nil =>
    exact ⟨[], [], by simp [linesOf], ⟨[], rfl⟩, by simp⟩
  | cons c rest ih =>
    obtain ⟨m, ms, hm, ⟨v0, hv0⟩, htail⟩ := ih
    by_cases h : c = '\n'
    · subst h
      refine ⟨[], linesOf rest, by simp [linesOf], ⟨'\n' :: rest, rfl⟩, ?_⟩
      intro x hx
      rw [hm] at hx
      rcases List.mem_cons.mp hx with rfl | hx
      · exact ⟨['\n'], v0, by simp [hv0]⟩
      · obtain ⟨u, v, huv⟩ := htail x hx
        exact ⟨'\n' :: u, v, by simp [huv]⟩
    · refine ⟨c :: m, ms, by simp [linesOf, h, hm], ⟨v0, by simp [hv0]⟩, ?_⟩
      intro x hx
      obtain ⟨u, v, huv⟩ := htail x hx
      exact ⟨c :: u, v, by simp [huv]⟩

theorem linesOf_mem_substring (l : List Char) :
    ∀ x ∈ linesOf l, ∃ u v, l = u ++ x ++ v := by
  intro x hx
  obtain ⟨m, ms, hm, ⟨v0, hv0⟩, htail⟩ := linesOf_struct l
  rw [hm] at hx
  rcases List.mem_cons.mp hx with rfl | hx
  · exact ⟨[], v0, by simp [hv0]⟩
  · exact htail x hx

theorem endsWithNlL_iff (l : List Char) :
    endsWithNlL l = true ↔ ∃ l', l = l' ++ ['\n'] := by
  induction l with
  | nil =>
    simp only [endsWithNlL]
    constructor
    · intro h; cases h
    · rintro ⟨l', h⟩; exact absurd h.symm (by simp)
  | cons c rest ih =>
    cases rest with
    | nil =>
      simp only [endsWithNlL, decide_eq_true_eq]
      constructor
      · rintro rfl; exact ⟨[], rfl⟩
      · rintro ⟨l', h⟩
        cases l' with
        | nil => simpa using h
        | cons y ys => simp at h
    | cons d rest' =>
      simp only [endsWithNlL, ih]
      constructor
      · rintro ⟨l', h⟩
        exact ⟨c :: l', by simp [h]⟩
      · rintro ⟨l', h⟩
        cases l' with
        | nil => simp at h
        | cons y ys =>
          simp only [List.cons_append, List.cons.injEq] at h
          exact ⟨ys, h.2⟩

/-! ## ConfigMutator: `addFeatureFlagToFile` (feature-flag-manager.js, lines 59–95) -/

/-- Outcome of one `addFeatureFlagToFile` call: the content written back to
the file (`none` when no write happened) and the boolean return value
(`true` is counted by `main` as an updated file). -/
structure AddOutcome where
  written : Option String
  applied : Bool
deriving Repr, DecidableEq

/-- Shallow embedding of `addFeatureFlagToFile(filePath, featureFlagName)`.
`file` is the state of the file at `filePath`: `none` when
`fs.existsSync(filePath)` is false, otherwise `some content`.  Mirrors the
source branch by branch:
* missing file: log `File not found` and `return false` (no write);
* `content.includes(featureFlagName + ":")`: log `already exists` and
  `return false` (no write);
* `!content.trim() || !content.includes(':')`: replace the content with a
  header comment line plus the flag line, `return true`;
* otherwise: append a final newline if missing, then the flag line,
  `return true`. -/
def addFeatureFlagToFile (file : Option String) (featureFlagName : String) : AddOutcome :=
  match file with
  | none => { written := none, applied := false }
  | some content =>
    if includesJs content (featureFlagName ++ ":") then
      { written := none, applied := false }
    else if isBlankL content.data || !(content.data.contains ':') then
      { written := some ("# Feature flags for this environment\n" ++
          (featureFlagName ++ ": true\n")), applied := true }
    else
      let c := if endsWithNl content then content else content ++ "\n"
      { written := some (c ++ (featureFlagName ++ ": true\n")), applied := true }

/-- File-system actions in the mutator's vocabulary: a direct write to a
path, or a rename (the latter never occurs in the source, which calls
`fs.writeFileSync(filePath, content)` directly). -/
inductive FsAct where
  | write (path content : String)
  | rename (src dst : String)
deriving Repr, DecidableEq

def isRenameAct : FsAct → Bool
  | .rename _ _ => true
  | .write _ _ => false

def isWriteTo : FsAct → String → Bool
  | .write p _, q => p = q
  | .rename _ _, _ => false

/-- The file-system trace of one `addFeatureFlagToFile(filePath, flag)` call:
the source performs at most one `fs.writeFileSync(filePath, content)` and
never creates a temporary file nor renames anything. -/
def addFlagFsTrace (filePath : String) (file : Option String) (flag : String) :
    List FsAct :=
  match (addFeatureFlagToFile file flag).written with
  | none => []
  | some c => [FsAct.write filePath c]

/-- Modelled from the spec: the repository has no Remove implementation —
`feature-flag-manager.js` only ever adds a flag, although its callers (the
bulk driver and the removal shell script) invoke a `remove` operation.
Spec §4.3: "If `operation = Remove`: remove the line declaring `flagName:`
if present; no-op (skip) if absent."  A line declares `flagName:` when it
starts with `flagName` followed by `:`.  Returns the resulting content and
whether anything was removed. -/
def removeFeatureFlagFromFile (content flagName : String) : String × Bool :=
  let ls := linesOf content.data
  let keep := ls.filter (fun l => !(prefixB (flagName ++ ":").data l))
  if keep.length = ls.length then (content, false)
  else (String.mk (joinLines keep), true)

/-! ## Basic facts about the mutator -/

theorem stringData_append (s t : String) : (s ++ t).data = s.data ++ t.data := rfl

theorem string_mk_data (s : String) : String.mk s.data = s := by cases s; rfl

/-- Behaviour of `addFeatureFlagToFile` on the append path, data-level. -/
theorem addFlag_append_written (content flag : String)
    (hInc : includesJs content (flag ++ ":") = false)
    (hBlank : isBlankL content.data = false)
    (hColon : content.data.contains ':' = true) :
    addFeatureFlagToFile (some content) flag =
      { written := some ((if endsWithNl content then content else content ++ "\n") ++
          (flag ++ ": true\n")), applied := true } := by
  have h' : ':' ∈ content.data := by simpa using hColon
  simp [addFeatureFlagToFile, hInc, hBlank, hColon, h']

theorem flagline_data (flag : String) :
    (flag ++ ": true\n").data = (flag.data ++ (": true").data) ++ '\n' :: [] := by
  have h : (": true\n").data = (": true").data ++ ['\n'] := by decide
  simp [stringData_append, h]

theorem flagline_no_nl (flag : String) (h : '\n' ∉ flag.data) :
    '\n' ∉ flag.data ++ (": true").data := by
  intro hmem
  rcases List.mem_append.mp hmem with h1 | h2
  · exact h h1
  · revert h2; decide

theorem linesOf_body_line (C F : List Char) (hF : '\n' ∉ F) :
    linesOf (C ++ '\n' :: (F ++ ['\n'])) = linesOf C ++ [F, []] := by
  rw [linesOf_append_nl]
  congr 1
  have h : F ++ ['\n'] = F ++ '\n' :: [] := rfl
  rw [h, linesOf_append_nl, linesOf_no_nl F hF]
  simp [linesOf]

theorem prefixB_of_ne_nil (P : List Char) (hP : P ≠ []) : prefixB P [] = false := by
  cases P with
  | nil => exact absurd rfl hP
  | cons a as => rfl

/-- Generic description of the append path of `addFeatureFlagToFile`: for an
existing, non-blank file that contains a `:` somewhere but not the flag, the
written file's line list is exactly the original's lines (without the
terminating empty line when the file ended in a newline) followed by the new
`flag: true` line and a terminating newline. -/
theorem addFlag_append_lines (content flag : String)
    (hInc : includesJs content (flag ++ ":") = false)
    (hBlank : isBlankL content.data = false)
    (hColon : content.data.contains ':' = true)
    (hFlagNl : '\n' ∉ flag.data) :
    ∃ W, addFeatureFlagToFile (some content) flag = { written := some W, applied := true } ∧
      linesOf W.data =
        (if endsWithNl content then (linesOf content.data).dropLast
         else linesOf content.data) ++ [flag.data ++ (": true").data, []] := by
  have base := addFlag_append_written content flag hInc hBlank hColon
  by_cases hE : endsWithNl content = true
  · obtain ⟨C', hC'⟩ := (endsWithNlL_iff content.data).mp hE
    refine ⟨content ++ (flag ++ ": true\n"), by rw [base, if_pos hE], ?_⟩
    have hW : (content ++ (flag ++ ": true\n")).data =
        C' ++ '\n' :: ((flag.data ++ (": true").data) ++ ['\n']) := by
      rw [stringData_append, hC', flagline_data]
      simp
    rw [hW, linesOf_body_line _ _ (flagline_no_nl flag hFlagNl), if_pos hE, hC']
    have h1 : C' ++ ['\n'] = C' ++ '\n' :: [] := rfl
    rw [h1, linesOf_append_nl]
    simp [linesOf, List.dropLast_concat]
  · have hE' : endsWithNl content = false := by
      cases h : endsWithNl content
      · rfl
      · exact absurd h hE
    refine ⟨(content ++ "\n") ++ (flag ++ ": true\n"), by rw [base, if_neg hE], ?_⟩
    have hW : ((content ++ "\n") ++ (flag ++ ": true\n")).data =
        content.data ++ '\n' :: ((flag.data ++ (": true").data) ++ ['\n']) := by
      rw [stringData_append, stringData_append, flagline_data]
      simp
    rw [hW, linesOf_body_line _ _ (flagline_no_nl flag hFlagNl), if_neg hE]

/-! ## Claim C4 — Add on a missing config file -/

/-- C4 (counterexample): for a missing config file (`fs.existsSync` false)
the source logs `File not found` and returns `false` without writing
anything — it does **not** create the file with a header and `flagName: true`
line, and the outcome does not count as Applied. -/
theorem add_missing_file_ce :
    (addFeatureFlagToFile none "FLAG").written = none ∧
      (addFeatureFlagToFile none "FLAG").applied = false := by
  exact ⟨rfl, rfl⟩

/-- C4 (amended): when the config file does not exist, `apply(_, flag, Add)`
performs no write and is reported as not-applied (a skip); the
header-creation behaviour happens only for an *existing* file whose content
is blank or contains no `:`, in which case the written file consists of the
one-line header comment, the line `flag: true`, and a terminating newline. -/
theorem add_missing_file_skips :
    (∀ flag, addFeatureFlagToFile none flag = { written := none, applied := false }) ∧
    (∀ flag content, includesJs content (flag ++ ":") = false →
      (isBlankL content.data = true ∨ content.data.contains ':' = false) →
      '\n' ∉ flag.data →
      ∃ W, addFeatureFlagToFile (some content) flag = { written := some W, applied := true } ∧
        linesOf W.data = [("# Feature flags for this environment").data,
          flag.data ++ (": true").data, []]) := by
  constructor
  · intro flag; rfl
  · intro flag content hInc hHdr hFlagNl
    have hcond : (isBlankL content.data || !(content.data.contains ':')) = true := by
      rcases hHdr with h | h
      · simp [h]
      · have h' : ':' ∉ content.data := by simpa using h
        simp [h']
    refine ⟨"# Feature flags for this environment\n" ++ (flag ++ ": true\n"), ?_, ?_⟩
    · have h1 : ¬(includesJs content (flag ++ ":") = true) := by simp [hInc]
      simp only [addFeatureFlagToFile, h1, hcond, if_true, if_false, eq_self_iff_true,
        Bool.false_eq_true]
    · have hW : ("# Feature flags for this environment\n" ++ (flag ++ ": true\n")).data =
          ("# Feature flags for this environment").data ++
            '\n' :: ((flag.data ++ (": true").data) ++ ['\n']) := by
        rw [stringData_append, flagline_data]
        have : ("# Feature flags for this environment\n").data =
            ("# Feature flags for this environment").data ++ ['\n'] := by decide
        rw [this]
        simp
      rw [hW, linesOf_body_line _ _ (flagline_no_nl flag hFlagNl),
        linesOf_no_nl _ (by decide)]
      rfl

/-- C4 (witness): instantiation of `add_missing_file_skips` at the empty
existing file and flag `FLAG`. -/
theorem add_missing_file_skips_witness :
    addFeatureFlagToFile none "FLAG" = { written := none, applied := false } ∧
    (∃ W, addFeatureFlagToFile (some "") "FLAG" = { written := some W, applied := true } ∧
      linesOf W.data = [("# Feature flags for this environment").data,
        ("FLAG").data ++ (": true").data, []]) :=
  ⟨add_missing_file_skips.1 "FLAG",
    add_missing_file_skips.2 "FLAG" "" (by decide) (Or.inl (by decide)) (by decide)⟩

/-! ## Claim C5 — AlreadyPresent detection on an existing file -/

/-- C5 (counterexample): on the file `"XFLAG: true\n"` with flag `FLAG` the
source skips (because `content.includes("FLAG:")` is a plain substring
test), yet no line of the file declares `FLAG:` — every line fails to start
with `FLAG:` even after stripping leading whitespace.  So "skip iff some
line declares `flagName:`" is false. -/
theorem add_skip_ce :
    addFeatureFlagToFile (some "XFLAG: true\n") "FLAG" =
      { written := none, applied := false } ∧
    ∀ l ∈ linesOf ("XFLAG: true\n").data,
      prefixB (("FLAG:").data) l = false ∧
      prefixB (("FLAG:").data) (l.dropWhile isWs) = false := by
  decide

/-- C5 (amended): on an existing file, `apply(_, flag, Add)` results in the
AlreadyPresent skip (no write, not applied, file unchanged) **iff** the
string `flag ++ ":"` occurs as a substring anywhere in the content — not
necessarily as the declaring prefix of a line. -/
theorem add_skip_iff_substring (content flag : String) :
    addFeatureFlagToFile (some content) flag = { written := none, applied := false } ↔
      includesJs content (flag ++ ":") = true := by
  cases hI : includesJs content (flag ++ ":") with
  | true => simp [addFeatureFlagToFile, hI]
  | false =>
    simp only [addFeatureFlagToFile, hI, Bool.false_eq_true, if_false, iff_false]
    intro hcontra
    split at hcontra <;> simp_all

/-! ## Claim C6 — Add preserves unrelated lines -/

/-- C6 (counterexample): an existing comment-only file (no `:` anywhere) that
does not contain the flag is *replaced* by the header structure: the
pre-existing line `# a comment` is absent from the written result, so "every
pre-existing line is preserved" fails. -/
theorem add_clobber_ce :
    (addFeatureFlagToFile (some "# a comment\n") "FLAG") =
      { written := some "# Feature flags for this environment\nFLAG: true\n",
        applied := true } ∧
    ("# a comment").data ∉
      linesOf ("# Feature flags for this environment\nFLAG: true\n").data := by
  decide

/-- C6 (amended): for an existing file that contains a `:` somewhere, is not
whitespace-only, does not contain the flag, and for a newline-free flag
name, every pre-existing line is preserved unchanged and in order; the only
changes are the appended `flag: true` line and the terminating newline. -/
theorem add_append_preserves_lines (content flag : String)
    (hInc : includesJs content (flag ++ ":") = false)
    (hBlank : isBlankL content.data = false)
    (hColon : content.data.contains ':' = true)
    (hFlagNl : '\n' ∉ flag.data) :
    ∃ W, addFeatureFlagToFile (some content) flag = { written := some W, applied := true } ∧
      linesOf W.data =
        (if endsWithNl content then (linesOf content.data).dropLast
         else linesOf content.data) ++ [flag.data ++ (": true").data, []] :=
  addFlag_append_lines content flag hInc hBlank hColon hFlagNl

/-- C6 (witness): instantiation of `add_append_preserves_lines` at the file
`"a: 1\nb: 2\n"` and flag `FLAG`. -/
theorem add_append_preserves_lines_witness :
    includesJs "a: 1\nb: 2\n" ("FLAG" ++ ":") = false ∧
    (∃ W, addFeatureFlagToFile (some "a: 1\nb: 2\n") "FLAG" =
        { written := some W, applied := true } ∧
      linesOf W.data =
        (if endsWithNl "a: 1\nb: 2\n" then (linesOf ("a: 1\nb: 2\n").data).dropLast
         else linesOf ("a: 1\nb: 2\n").data) ++ [("FLAG").data ++ (": true").data, []]) :=
  ⟨by decide, add_append_preserves_lines "a: 1\nb: 2\n" "FLAG"
    (by decide) (by decide) (by decide) (by decide)⟩

/-! ## Claim C7 — write discipline of the mutator -/

/-- C7 (counterexample): the mutator writes the new content *directly* to the
config file path with a single `fs.writeFileSync` — the trace of the call on
`values.yaml` is one direct write to `values.yaml` and contains no rename,
so there is no write-temp-then-rename step. -/
theorem add_write_direct_ce :
    addFlagFsTrace "values.yaml" (some "a: 1\n") "FLAG" =
      [FsAct.write "values.yaml" "a: 1\nFLAG: true\n"] ∧
    (addFlagFsTrace "values.yaml" (some "a: 1\n") "FLAG").all
      (fun a => !isRenameAct a) = true := by
  decide

/-- C7 (amended): every file-system action performed by one
`addFeatureFlagToFile(filePath, flag)` call is a direct write to `filePath`
itself (never a rename, never a write to a temporary path), and there is at
most one such write per invocation. -/
theorem add_write_direct (filePath : String) (file : Option String) (flag : String) :
    (addFlagFsTrace filePath file flag).all
      (fun a => !isRenameAct a && isWriteTo a filePath) = true ∧
    (addFlagFsTrace filePath file flag).length ≤ 1 := by
  unfold addFlagFsTrace
  cases h : (addFeatureFlagToFile file flag).written <;>
    simp [isRenameAct, isWriteTo]

/-! ## Claim C2 — Remove after Add -/

/-- C2 (counterexample): on the pre-Add content `"a: 1"` (no trailing
newline; an existing file with a `:`, so not the created-header case) the
Add appends a newline first, and the spec-modelled Remove then yields
`"a: 1\n"`, which differs byte-for-byte from the pre-Add content.  So
Remove∘Add does not restore the pre-Add bytes outside the created-header
case. -/
theorem remove_after_add_ce :
    (addFeatureFlagToFile (some "a: 1") "FLAG").written = some "a: 1\nFLAG: true\n" ∧
    removeFeatureFlagFromFile "a: 1\nFLAG: true\n" "FLAG" = ("a: 1\n", true) ∧
    ("a: 1\n" : String) ≠ "a: 1" := by
  decide

/-- C2 (amended): for an existing pre-Add content that ends with a newline,
contains a `:` somewhere, is not whitespace-only and does not contain the
substring `flag ++ ":"`, and for a newline-free flag name,
`Remove(flag)` applied to the file written by `Add(flag)` restores exactly
the pre-Add byte content (and reports that it removed something).  Without
the trailing-newline condition the result is the pre-Add content plus a
final newline. -/
theorem remove_after_add_restores (content flag : String)
    (hNl : endsWithNl content = true)
    (hInc : includesJs content (flag ++ ":") = false)
    (hBlank : isBlankL content.data = false)
    (hColon : content.data.contains ':' = true)
    (hFlagNl : '\n' ∉ flag.data) :
    ∃ W, addFeatureFlagToFile (some content) flag = { written := some W, applied := true } ∧
      removeFeatureFlagFromFile W flag = (content, true) := by
  have base := addFlag_append_written content flag hInc hBlank hColon
  obtain ⟨C', hC'⟩ := (endsWithNlL_iff content.data).mp hNl
  have base' : addFeatureFlagToFile (some content) flag =
      { written := some (content ++ (flag ++ ": true\n")), applied := true } := by
    rw [base]
    rw [if_pos hNl]
  refine ⟨content ++ (flag ++ ": true\n"), base', ?_⟩
  have hP : ((flag ++ ":" : String)).data = flag.data ++ [':'] := by
    rw [stringData_append]
  have hW : (content ++ (flag ++ ": true\n")).data =
      C' ++ '\n' :: ((flag.data ++ (": true").data) ++ ['\n']) := by
    rw [stringData_append, hC', flagline_data]
    simp
  unfold removeFeatureFlagFromFile
  rw [hW, linesOf_body_line _ _ (flagline_no_nl flag hFlagNl)]
  -- compute the filter on each of the three pieces
  have hkeepC : (linesOf C').filter
      (fun l => !(prefixB ((flag ++ ":" : String)).data l)) = linesOf C' := by
    apply List.filter_eq_self.mpr
    intro x hx
    cases hpb : prefixB ((flag ++ ":" : String)).data x
    · simp
    · exfalso
      obtain ⟨t, ht⟩ := (prefixB_iff _ _).mp hpb
      obtain ⟨u, v, huv⟩ := linesOf_mem_substring C' x hx
      have hcontra : includesJs content (flag ++ ":") = true := by
        unfold includesJs
        apply (infixOfB_iff _ _).mpr
        exact ⟨u, t ++ v ++ ['\n'], by rw [hC', huv, ht]; simp⟩
      simp [hcontra] at hInc
  have hdropF : prefixB ((flag ++ ":" : String)).data
      (flag.data ++ (": true").data) = true := by
    apply (prefixB_iff _ _).mpr
    refine ⟨(" true").data, ?_⟩
    rw [hP]
    have : (": true").data = ':' :: (" true").data := by decide
    rw [this]
    simp
  have hkeepNil : prefixB ((flag ++ ":" : String)).data [] = false := by
    apply prefixB_of_ne_nil
    rw [hP]
    simp
  simp only [List.filter_append, hkeepC, List.filter_cons, hdropF, Bool.not_true,
    List.filter_nil, hkeepNil, Bool.not_false, Bool.false_eq_true, Bool.true_eq_false,
    if_true, if_false]
  have hlen : (linesOf C' ++ [([] : List Char)]).length ≠
      (linesOf C' ++ [flag.data ++ (": true").data, []]).length := by
    simp
  rw [if_neg hlen]
  have hjoin : joinLines (linesOf C' ++ [([] : List Char)]) = content.data := by
    have h1 : C' ++ ['\n'] = C' ++ '\n' :: [] := rfl
    have h2 : linesOf (C' ++ '\n' :: []) = linesOf C' ++ [([] : List Char)] := by
      rw [linesOf_append_nl]; rfl
    rw [← h2, joinLines_linesOf, ← h1, ← hC']
  rw [hjoin, string_mk_data]

/-- C2 (witness): instantiation of `remove_after_add_restores` at the
newline-terminated content `"a: 1\n"` and flag `FLAG`. -/
theorem remove_after_add_restores_witness :
    endsWithNl "a: 1\n" = true ∧
    (∃ W, addFeatureFlagToFile (some "a: 1\n") "FLAG" =
        { written := some W, applied := true } ∧
      removeFeatureFlagFromFile W "FLAG" = ("a: 1\n", true)) :=
  ⟨by decide, remove_after_add_restores "a: 1\n" "FLAG"
    (by decide) (by decide) (by decide) (by decide) (by decide)⟩

/-! ## The interactive prompt flow of `main` (feature-flag-manager.js, lines 147–205)

`askQuestion` resolves with the next stdin line, trimmed.  The flow asks, in
order: feature-flag name (exit 1 if empty), project name (exit 1 if empty),
a continue-anyway confirmation when the project directory is missing
(exit 0 unless `y`/`yes`), the environment type (re-asked until it is
`prod` or `non-prod`), and a final confirmation (exit 0 unless `y`/`yes`).
There is **no operation prompt**. -/

/-- JS `String.prototype.trim` on the character list. -/
def trimL (l : List Char) : List Char :=
  ((l.dropWhile isWs).reverse.dropWhile isWs).reverse

/-- JS `answer.trim()`. -/
def jsTrim (s : String) : String := String.mk (trimL s.data)

/-- JS `s.toLowerCase()` (ASCII suffices here). -/
def jsToLower (s : String) : String := String.mk (s.data.map Char.toLower)

/-- The `y`/`yes` acceptance test used by both confirmation prompts. -/
def yesAns (s : String) : Bool := jsToLower s = "y" || jsToLower s = "yes"

/-- Result of the prompt-consumption phase of `main`. -/
inductive FlowResult where
  | exitFail
  | cancelled
  | hung
  | proceed (featureFlagName projectName envType : String)
deriving Repr, DecidableEq

/-- One `askQuestion` call: consume the next scripted line, trimmed; `none`
when stdin is exhausted (the promise never resolves — the process hangs). -/
def ask : List String → Option (String × List String)
  | [] => none
  | a :: rest => some (jsTrim a, rest)

/-- The environment-type retry loop (lines 186–193): consume lines until one
is `prod` or `non-prod`. -/
def askEnvType : List String → Option (String × List String)
  | [] => none
  | a :: rest =>
    let t := jsTrim a
    if t = "prod" || t = "non-prod" then some (t, rest) else askEnvType rest

/-- Environment-type question, then summary confirmation. -/
def envAndConfirm (featureFlagName projectName : String) (rest : List String) :
    FlowResult :=
  match askEnvType rest with
  | none => .hung
  | some (envType, r4) =>
    match ask r4 with
    | none => .hung
    | some (confirm, _) =>
      if yesAns confirm then .proceed featureFlagName projectName envType
      else .cancelled

/-- The full prompt-consumption phase of `main`: which answers are consumed
by which prompt, and with what outcome.  `projectExistsFn p` models
`fs.existsSync("v2/applications/" + p)`. -/
def consumePrompts (answers : List String) (projectExistsFn : String → Bool) :
    FlowResult :=
  match ask answers with
  | none => .hung
  | some (featureFlagName, r1) =>
    if featureFlagName = "" then .exitFail
    else
      match ask r1 with
      | none => .hung
      | some (projectName, r2) =>
        if projectName = "" then .exitFail
        else if projectExistsFn projectName then
          envAndConfirm featureFlagName projectName r2
        else
          match ask r2 with
          | none => .hung
          | some (cont, r3) =>
            if yesAns cont then envAndConfirm featureFlagName projectName r3
            else .cancelled

/-- The scripted answer lines the bulk driver writes to the subprocess's
stdin (bulk-feature-flag-manager.js, lines 90–94): operation, flag name,
project, environment type, confirmation — in that order. -/
def bulkScriptedAnswers (operation featureFlagName project envType : String) :
    List String :=
  [operation, featureFlagName, project, envType, "y"]

/-! ## Claim C3 — bulk scripted input vs. the single-project prompts -/

/-- C3: the single-project flow never asks for an operation, so the bulk
script's five answers are consumed one prompt too early.  On
`remove FLAG non-prod proj`: if every project directory exists, the flow
proceeds with feature-flag name `"remove"` and project `"FLAG"` (the scripted
project name `"proj"` is swallowed by the env-type retry loop); if the
project directory is missing, the scripted `"proj"` answers the
continue-anyway prompt and the run is cancelled. -/
theorem bulk_script_misaligned :
    consumePrompts (bulkScriptedAnswers "remove" "FLAG" "proj" "non-prod")
        (fun _ => true) = .proceed "remove" "FLAG" "non-prod" ∧
    consumePrompts (bulkScriptedAnswers "remove" "FLAG" "proj" "non-prod")
        (fun _ => false) = .cancelled := by
  decide

/-! ## Claim C8 — topic branch naming (feature-flag-manager.js, line 226) -/

/-- Shallow embedding of
``const branchName = `add-${featureFlagName}-${projectName}-${envType}-${Date.now()}`;``
Note the hardcoded `add-` prefix: the single-project script has no operation
input at all. -/
def mkBranchName (featureFlagName projectName envType : String) (timestamp : Nat) :
    String :=
  "add-" ++ featureFlagName ++ "-" ++ projectName ++ "-" ++ envType ++ "-" ++
    Nat.repr timestamp

/-- C8 (counterexample): the branch derived for a removal run is still
`add-` prefixed — the name never starts with the requested operation
`remove`. -/
theorem branch_name_not_op_prefixed :
    mkBranchName "FLAG" "proj" "non-prod" 5 = "add-FLAG-proj-non-prod-5" ∧
    prefixB ("remove-").data (mkBranchName "FLAG" "proj" "non-prod" 5).data = false := by
  decide

/-! Injectivity of the decimal timestamp suffix.  `Nat.repr` is defined via
the fuel-based `Nat.toDigitsCore`; we replace it by a structural
formulation and prove a parse-back round trip. -/

/-- Fuel-free decimal digit list (most significant first). -/
def decDigits (n : Nat) : List Char :=
  if _h : n < 10 then [Nat.digitChar n]
  else decDigits (n / 10) ++ [Nat.digitChar (n % 10)]
decreasing_by
  exact Nat.div_lt_self (by omega) (by omega)

theorem toDigitsCore_eq_decDigits (f : Nat) :
    ∀ n acc, n < f → Nat.toDigitsCore 10 f n acc = decDigits n ++ acc := by
  induction f with
  | zero => intro n acc h; exact absurd h (Nat.not_lt_zero n)
  | succ f ih =>
    intro n acc h
    have hstep : Nat.toDigitsCore 10 (f + 1) n acc =
        if n / 10 = 0 then Nat.digitChar (n % 10) :: acc
        else Nat.toDigitsCore 10 f (n / 10) (Nat.digitChar (n % 10) :: acc) := rfl
    by_cases h10 : n / 10 = 0
    · have hn : n < 10 := by
        by_contra hge
        have : 1 ≤ n / 10 := Nat.one_le_div_iff (by omega) |>.mpr (by omega)
        omega
      rw [hstep, if_pos h10]
      conv_rhs => rw [decDigits]
      rw [dif_pos hn, Nat.mod_eq_of_lt hn]
      rfl
    · have hn : ¬n < 10 := by
        intro hlt
        exact h10 (Nat.div_eq_of_lt hlt)
      have hlt : n / 10 < f := by
        have h1 : n / 10 < n := Nat.div_lt_self (by omega) (by omega)
        omega
      rw [hstep, if_neg h10, ih (n / 10) _ hlt]
      conv_rhs => rw [decDigits]
      rw [dif_neg hn]
      simp

theorem natRepr_eq_decDigits (n : Nat) : (Nat.repr n).data = decDigits n := by
  show (Nat.toDigits 10 n).asString.data = decDigits n
  unfold Nat.toDigits
  rw [toDigitsCore_eq_decDigits (n + 1) n [] (Nat.lt_succ_self n)]
  simp [List.asString]

/-- Numeric value of a decimal digit character. -/
def digitVal (c : Char) : Nat := c.toNat - 48

theorem digitVal_digitChar (d : Nat) (h : d < 10) :
    digitVal (Nat.digitChar d) = d := by
  interval_cases d <;> decide

theorem foldl_decDigits (n : Nat) :
    ∀ s, List.foldl (fun a c => a * 10 + digitVal c) s (decDigits n) =
      s * 10 ^ (decDigits n).length + n := by
  induction n using Nat.strong_induction_on with
  | _ n ih =>
    intro s
    by_cases h : n < 10
    · rw [decDigits, dif_pos h]
      simp [digitVal_digitChar n h]
    · rw [decDigits, dif_neg h]
      have hlt : n / 10 < n := Nat.div_lt_self (by omega) (by omega)
      rw [List.foldl_append, ih (n / 10) hlt s]
      simp only [List.foldl_cons, List.foldl_nil, List.length_append,
        List.length_cons, List.length_nil]
      rw [digitVal_digitChar (n % 10) (Nat.mod_lt n (by omega))]
      have hpow : 10 ^ ((decDigits (n / 10)).length + (0 + 1)) =
          10 ^ (decDigits (n / 10)).length * 10 := by ring
      rw [hpow]
      have hdm : n / 10 * 10 + n % 10 = n := by omega
      ring_nf
      omega

theorem decDigits_inj {n m : Nat} (h : decDigits n = decDigits m) : n = m := by
  have hn := foldl_decDigits n 0
  have hm := foldl_decDigits m 0
  rw [h] at hn
  omega

theorem natRepr_inj {n m : Nat} (h : Nat.repr n = Nat.repr m) : n = m := by
  apply decDigits_inj
  rw [← natRepr_eq_decDigits, ← natRepr_eq_decDigits, h]

/-- C8 (amended): the topic branch name is always
`add-<flagName>-<projectName>-<envType>-<timestamp>` — the first component
is the literal `add` regardless of the requested operation (the single
script has no operation input) — and distinct timestamps still give
distinct branch names, so the timestamp suffix keeps names unique per run. -/
theorem branch_name_shape_and_unique :
    (∀ f p e t, prefixB ("add-").data (mkBranchName f p e t).data = true) ∧
    (∀ f p e t t', t ≠ t' → mkBranchName f p e t ≠ mkBranchName f p e t') := by
  constructor
  · intro f p e t
    apply (prefixB_iff _ _).mpr
    refine ⟨(f ++ "-" ++ p ++ "-" ++ e ++ "-" ++ Nat.repr t).data, ?_⟩
    show (mkBranchName f p e t).data = _
    unfold mkBranchName
    simp only [stringData_append, List.append_assoc]
  · intro f p e t t' hne heq
    apply hne
    have hdata := congrArg String.data heq
    unfold mkBranchName at hdata
    simp only [stringData_append, List.append_assoc, natRepr_eq_decDigits,
      List.append_right_inj] at hdata
    exact decDigits_inj hdata

/-- C8 (witness): instantiation of the uniqueness half at timestamps 5 and 6. -/
theorem branch_name_unique_witness :
    (5 : Nat) ≠ 6 ∧
      mkBranchName "FLAG" "proj" "non-prod" 5 ≠ mkBranchName "FLAG" "proj" "non-prod" 6 :=
  ⟨by decide, branch_name_shape_and_unique.2 "FLAG" "proj" "non-prod" 5 6 (by decide)⟩

/-! ## The single-project workflow run (feature-flag-manager.js, `main`)

`executeCommand` (lines 24–37) wraps `execSync` in a `try`/`catch` whose
catch branch logs and calls `process.exit(1)`.  A failing external command
therefore terminates the whole process at once: nothing after the failing
call — including `main`'s catch-block restoration (lines 315–333) — runs.
The run is modelled as a sequence of command steps over the workspace
state, with a failure oracle saying which command invocation (by index)
fails.  File-system operations (`readdirSync`, `mkdirSync`, the mutator's
read/write) are assumed to succeed; only external-command failures are
injected, which is all the refuted/confirmed claims need. -/

/-- Git workspace state: current branch, whether the working tree has
uncommitted changes, and whether the run's stash entry exists. -/
structure WsState where
  branch : String
  dirty : Bool
  stashed : Bool
deriving Repr, DecidableEq

/-- The external commands `main` issues, in the workflow's vocabulary. -/
inductive Act where
  | revParse
  | statusPorcelain
  | stashPush
  | fetchOrigin
  | checkoutMaster
  | pullMaster
  | checkoutNew (branch : String)
  | gitAddAll
  | commitAll
  | gitRemote
  | pushBranch (remote branch : String)
  | prCreate
  | checkoutOrig (branch : String)
  | stashPop
deriving Repr, DecidableEq

inductive Outcome where
  | exited (code : Nat)
  | hung
deriving Repr, DecidableEq

/-- Final state of one run: how it ended, the final workspace state, the
attempted commands (with success flag), and the index of the failed
command, if any. -/
structure RunResult where
  outcome : Outcome
  ws : WsState
  acts : List (Act × Bool)
  failedAt : Option Nat
deriving Repr, DecidableEq

/-- In-flight state of a run. -/
structure RunSt where
  ws : WsState
  acts : List (Act × Bool)
  cmdIdx : Nat
deriving Repr, DecidableEq

/-- Inputs of one single-project run. -/
structure RunInput where
  init : WsState
  answers : List String
  projectExistsFn : String → Bool
  files : String → String → Option String
  remotes : List String
  timestamp : Nat
  fails : Nat → Bool

/-- One `executeCommand` call.  On failure the catch branch prints and calls
`process.exit(1)`: the run terminates immediately with exit code 1 and the
command's effect is not applied.  The failure is *never* re-thrown to the
in-process caller. -/
def executeCommand (fails : Nat → Bool) (a : Act) (eff : WsState → WsState)
    (st : RunSt) : Except RunResult RunSt :=
  if fails st.cmdIdx then
    Except.error
      { outcome := Outcome.exited 1, ws := st.ws,
        acts := st.acts ++ [(a, false)], failedAt := some st.cmdIdx }
  else
    Except.ok
      { ws := eff st.ws, acts := st.acts ++ [(a, true)],
        cmdIdx := st.cmdIdx + 1 }

/-- Sequencing: a terminated run stays terminated. -/
def pstep (e : Except RunResult RunSt) (f : RunSt → RunResult) : RunResult :=
  match e with
  | .error r => r
  | .ok st => f st

def exitResult (code : Nat) (st : RunSt) : RunResult :=
  { outcome := Outcome.exited code, ws := st.ws, acts := st.acts, failedAt := none }

def hungResult (st : RunSt) : RunResult :=
  { outcome := Outcome.hung, ws := st.ws, acts := st.acts, failedAt := none }

/-- Environment directories per environment type (lines 213–220). -/
def envDirsFor (envType : String) : List String :=
  if envType = "prod" then ["prod"] else ["main", "ondemand", "stage", "preprod"]

/-- Shallow embedding of `main` (feature-flag-manager.js, lines 111–337):
capture (current branch, status, stash if dirty), prompts, fetch/checkout
master/pull, create the topic branch, mutate the per-environment files,
then — only when at least one file changed — add/commit, resolve the push
remote, push, open the PR, and restore branch and stash.  `process.exit`
(from a failing command, the zero-update guard, or a prompt cancellation)
ends the run on the spot. -/
def runMain (inp : RunInput) : RunResult :=
  pstep (executeCommand inp.fails .revParse id
    { ws := inp.init, acts := [], cmdIdx := 0 }) fun st1 =>
  pstep (executeCommand inp.fails .statusPorcelain id st1) fun st2 =>
  pstep (if inp.init.dirty then
          executeCommand inp.fails .stashPush
            (fun w => { w with dirty := false, stashed := true }) st2
        else Except.ok st2) fun st3 =>
  match consumePrompts inp.answers inp.projectExistsFn with
  | .hung => hungResult st3
  | .exitFail => exitResult 1 st3
  | .cancelled => exitResult 0 st3
  | .proceed featureFlagName projectName envType =>
    pstep (executeCommand inp.fails .fetchOrigin id st3) fun st4 =>
    pstep (executeCommand inp.fails .checkoutMaster
            (fun w => { w with branch := "master" }) st4) fun st5 =>
    pstep (executeCommand inp.fails .pullMaster id st5) fun st6 =>
    pstep (executeCommand inp.fails
            (.checkoutNew (mkBranchName featureFlagName projectName envType inp.timestamp))
            (fun w => { w with
              branch := mkBranchName featureFlagName projectName envType inp.timestamp })
            st6) fun st7 =>
    if (envDirsFor envType).countP
        (fun env => (addFeatureFlagToFile (inp.files projectName env) featureFlagName).applied)
        = 0 then exitResult 1 st7
    else
      pstep (executeCommand inp.fails .gitAddAll id st7) fun st8 =>
      pstep (executeCommand inp.fails .commitAll id st8) fun st9 =>
      pstep (executeCommand inp.fails .gitRemote id st9) fun st10 =>
      pstep (executeCommand inp.fails
              (.pushBranch
                (if inp.remotes.contains "ttranupgrade" then "ttranupgrade" else "origin")
                (mkBranchName featureFlagName projectName envType inp.timestamp))
              id st10) fun st11 =>
      pstep (executeCommand inp.fails .prCreate id st11) fun st12 =>
      pstep (if inp.init.branch ≠ "" ∧ inp.init.branch ≠ "master" then
              executeCommand inp.fails (.checkoutOrig inp.init.branch)
                (fun w => { w with branch := inp.init.branch }) st12
            else Except.ok st12) fun st13 =>
      pstep (if inp.init.dirty then
              executeCommand inp.fails .stashPop
                (fun w => { w with dirty := true, stashed := false }) st13
            else Except.ok st13) fun st14 =>
      exitResult 0 st14

/-! ## Claim C10 — executeCommand failure semantics -/

/-- Invariant of in-flight states: one attempt recorded per command index. -/
def SOk (st : RunSt) : Prop := st.acts.length = st.cmdIdx

/-- Invariant of final results: if a command failed, the run exited with
code 1 right there — the failed attempt is the last recorded action and
nothing ran after it. -/
def ROk (r : RunResult) : Prop :=
  ∀ k, r.failedAt = some k → r.outcome = .exited 1 ∧ r.acts.length = k + 1

def EOk (e : Except RunResult RunSt) : Prop :=
  match e with
  | .error r => ROk r
  | .ok st => SOk st

theorem EOk_ok {st : RunSt} (h : SOk st) : EOk (Except.ok st) := h

theorem executeCommand_EOk (fails : Nat → Bool) (a : Act) (eff : WsState → WsState)
    {st : RunSt} (h : SOk st) : EOk (executeCommand fails a eff st) := by
  unfold executeCommand
  have h' : st.acts.length = st.cmdIdx := h
  by_cases hf : fails st.cmdIdx = true
  · rw [if_pos hf]
    show ROk _
    intro k hk
    simp only [Option.some.injEq] at hk
    subst hk
    exact ⟨rfl, by simp [h']⟩
  · rw [if_neg hf]
    show (st.acts ++ [(a, true)]).length = st.cmdIdx + 1
    simp [h']

theorem pstep_ROk {e : Except RunResult RunSt} {f : RunSt → RunResult}
    (he : EOk e) (hf : ∀ st, SOk st → ROk (f st)) : ROk (pstep e f) := by
  cases e with
  | error r => exact he
  | ok st => exact hf st he

theorem exitResult_ROk (code : Nat) (st : RunSt) : ROk (exitResult code st) := by
  intro k hk
  simp [exitResult] at hk

theorem hungResult_ROk (st : RunSt) : ROk (hungResult st) := by
  intro k hk
  simp [hungResult] at hk

theorem ite_EOk (c : Prop) [Decidable c] (x y : Except RunResult RunSt)
    (hx : EOk x) (hy : EOk y) : EOk (if c then x else y) := by
  split
  · exact hx
  · exact hy

/-- C10: whenever an external command invoked through `executeCommand`
fails, the single-project run terminates immediately with exit code 1: the
failed attempt is the last recorded action (nothing at all runs after it —
in particular the catch-block restoration never runs), and the failure is
never surfaced as an in-process exception. -/
theorem command_failure_exits_immediately (inp : RunInput) (k : Nat)
    (h : (runMain inp).failedAt = some k) :
    (runMain inp).outcome = .exited 1 ∧ (runMain inp).acts.length = k + 1 := by
  have hmain : ROk (runMain inp) := by
    unfold runMain
    apply pstep_ROk (executeCommand_EOk _ _ _ (by simp [SOk]))
    intro st1 h1
    apply pstep_ROk (executeCommand_EOk _ _ _ h1)
    intro st2 h2
    apply pstep_ROk (ite_EOk _ _ _ (executeCommand_EOk _ _ _ h2) (EOk_ok h2))
    intro st3 h3
    cases consumePrompts inp.answers inp.projectExistsFn with
    | hung => exact hungResult_ROk st3
    | exitFail => exact exitResult_ROk 1 st3
    | cancelled => exact exitResult_ROk 0 st3
    | proceed featureFlagName projectName envType =>
      apply pstep_ROk (executeCommand_EOk _ _ _ h3)
      intro st4 h4
      apply pstep_ROk (executeCommand_EOk _ _ _ h4)
      intro st5 h5
      apply pstep_ROk (executeCommand_EOk _ _ _ h5)
      intro st6 h6
      apply pstep_ROk (executeCommand_EOk _ _ _ h6)
      intro st7 h7
      split
      · exact exitResult_ROk 1 st7
      · apply pstep_ROk (executeCommand_EOk _ _ _ h7)
        intro st8 h8
        apply pstep_ROk (executeCommand_EOk _ _ _ h8)
        intro st9 h9
        apply pstep_ROk (executeCommand_EOk _ _ _ h9)
        intro st10 h10
        apply pstep_ROk (executeCommand_EOk _ _ _ h10)
        intro st11 h11
        apply pstep_ROk (executeCommand_EOk _ _ _ h11)
        intro st12 h12
        apply pstep_ROk (ite_EOk _ _ _ (executeCommand_EOk _ _ _ h12) (EOk_ok h12))
        intro st13 h13
        apply pstep_ROk (ite_EOk _ _ _ (executeCommand_EOk _ _ _ h13) (EOk_ok h13))
        intro st14 _
        exact exitResult_ROk 0 st14
  exact hmain k h

/-- A run whose second command (`git status --porcelain`) fails. -/
def runFailStatus : RunInput :=
  { init := { branch := "feature-x", dirty := false, stashed := false },
    answers := ["FLAG", "proj", "non-prod", "y"],
    projectExistsFn := fun _ => true,
    files := fun _ _ => some "a: 1\n",
    remotes := ["origin"],
    timestamp := 5,
    fails := fun i => i == 1 }

/-- C10 (witness): instantiation at a run whose `git status` call fails. -/
theorem command_failure_exits_immediately_witness :
    (runMain runFailStatus).failedAt = some 1 ∧
      ((runMain runFailStatus).outcome = .exited 1 ∧
        (runMain runFailStatus).acts.length = 1 + 1) :=
  ⟨by decide, command_failure_exits_immediately runFailStatus 1 (by decide)⟩

/-! ## Claim C1 — restoration after a failing workflow step -/

/-- A run that starts on branch `feature-x` with uncommitted changes (moved
into a stash at capture) and whose `git push` invocation fails.  Command
indices: 0 rev-parse, 1 status, 2 stash push, 3 fetch, 4 checkout master,
5 pull, 6 checkout -b, 7 add, 8 commit, 9 remote, 10 push. -/
def runPushFails : RunInput :=
  { init := { branch := "feature-x", dirty := true, stashed := false },
    answers := ["FLAG", "proj", "non-prod", "y"],
    projectExistsFn := fun _ => true,
    files := fun _ _ => some "a: 1\n",
    remotes := ["origin"],
    timestamp := 5,
    fails := fun i => i == 10 }

/-- C1: when the push step fails, `executeCommand`'s catch branch calls
`process.exit(1)` and `main`'s catch-block restoration never runs — the run
terminates with exit code 1 while the workspace is still on the topic
branch (not the captured `feature-x`) and the pre-existing uncommitted
changes are still inside the stash instead of back in the working tree. -/
theorem restoration_skipped_on_push_failure :
    (runMain runPushFails).outcome = Outcome.exited 1 ∧
    (runMain runPushFails).ws.branch = "add-FLAG-proj-non-prod-5" ∧
    (runMain runPushFails).ws.branch ≠ runPushFails.init.branch ∧
    (runMain runPushFails).ws.stashed = true ∧
    (runMain runPushFails).ws.dirty = false := by
  decide

/-! ## Claim C9 — the zero-update guard -/

/-- A failure-free run in which every environment file already contains the
flag, so no file is updated. -/
def runNoChange : RunInput :=
  { init := { branch := "feature-x", dirty := true, stashed := false },
    answers := ["FLAG", "proj", "non-prod", "y"],
    projectExistsFn := fun _ => true,
    files := fun _ _ => some "FLAG: true\n",
    remotes := ["origin"],
    timestamp := 5,
    fails := fun _ => false }

/-- C9 (counterexample): when no file is updated the run does exit before
commit/push/PR, but it exits with code 1 — reported as a *failure*, not a
no-op — and attempts no restoration: the final trace ends at the topic
branch creation, leaving the workspace on the topic branch with the stash
unpopped. -/
theorem noop_guard_ce :
    (runMain runNoChange).outcome = Outcome.exited 1 ∧
    (runMain runNoChange).ws.branch = "add-FLAG-proj-non-prod-5" ∧
    (runMain runNoChange).ws.stashed = true ∧
    (runMain runNoChange).acts =
      [(Act.revParse, true), (Act.statusPorcelain, true), (Act.stashPush, true),
       (Act.fetchOrigin, true), (Act.checkoutMaster, true), (Act.pullMaster, true),
       (Act.checkoutNew "add-FLAG-proj-non-prod-5", true)] := by
  decide

/-- C9 (amended): whenever every environment target is already in the
desired state (zero applied outcomes), the run indeed produces no commit,
no push and no pull request — but it terminates immediately via
`process.exit(1)`: it is reported as a failure (exit code 1), no
restoration is attempted, the workspace is left on the topic branch, and a
stash created at capture stays unpopped. -/
theorem noop_guard_exits_one (inp : RunInput)
    (featureFlagName projectName envType : String)
    (hc : consumePrompts inp.answers inp.projectExistsFn =
      FlowResult.proceed featureFlagName projectName envType)
    (hs : inp.init.stashed = false)
    (hf : ∀ i, inp.fails i = false)
    (hz : ∀ e ∈ envDirsFor envType,
      (addFeatureFlagToFile (inp.files projectName e) featureFlagName).applied = false) :
    (runMain inp).outcome = Outcome.exited 1 ∧
    (runMain inp).ws.branch =
      mkBranchName featureFlagName projectName envType inp.timestamp ∧
    (runMain inp).ws.stashed = inp.init.dirty ∧
    (∀ ab ∈ (runMain inp).acts, ab.1 ≠ Act.gitAddAll ∧ ab.1 ≠ Act.commitAll ∧
      (∀ r b, ab.1 ≠ Act.pushBranch r b) ∧ ab.1 ≠ Act.prCreate) := by
  have hcount : (envDirsFor envType).countP
      (fun env =>
        (addFeatureFlagToFile (inp.files projectName env) featureFlagName).applied) = 0 := by
    apply List.countP_eq_zero.mpr
    intro a ha
    simp [hz a ha]
  cases hd : inp.init.dirty <;>
    simp [runMain, executeCommand, hf, pstep, hc, hcount, hd, hs, exitResult]

/-- C9 (witness): instantiation of `noop_guard_exits_one` at `runNoChange`. -/
theorem noop_guard_exits_one_witness :
    consumePrompts runNoChange.answers runNoChange.projectExistsFn =
      FlowResult.proceed "FLAG" "proj" "non-prod" ∧
    ((runMain runNoChange).outcome = Outcome.exited 1 ∧
     (runMain runNoChange).ws.branch = mkBranchName "FLAG" "proj" "non-prod" 5 ∧
     (runMain runNoChange).ws.stashed = runNoChange.init.dirty ∧
     (∀ ab ∈ (runMain runNoChange).acts, ab.1 ≠ Act.gitAddAll ∧ ab.1 ≠ Act.commitAll ∧
       (∀ r b, ab.1 ≠ Act.pushBranch r b) ∧ ab.1 ≠ Act.prCreate)) :=
  ⟨by decide,
    noop_guard_exits_one runNoChange "FLAG" "proj" "non-prod"
      (by decide) rfl (fun _ => rfl) (by decide)⟩

end DevTools
